import Mathlib

/-!
Verification of the task-partner assignment engine (the team_3 heuristic
and team_6 optimal-solver preference modules) against its natural-language
specification.

Shallow embedding conventions:
* Python floats are modelled as rationals; all arithmetic appearing in the
  source (sums, maxima, halving, fixed multipliers) is exact on the inputs
  considered, so this is faithful.
* Ability and difficulty vectors are lists of rationals.  List indexing
  `xs[i]` is rendered as `xs.getD i 0`; an out-of-range index in the source
  raises, which the specification classifies as a fatal precondition
  violation (mismatched vector lengths), so the default never matters on
  well-formed inputs.
* A Python division whose divisor can be zero on well-formed input is the
  one recoverable failure mode; fallible computations therefore return
  `Option`, with `none` standing for a raised exception.
* The injected random source is modelled as an arbitrary list-permuting
  function passed explicitly; hypotheses of the form
  `(∀ l, List.Perm (sh l) l)` say the function behaves as a shuffle.
-/

/-- An agent: identity, ability vector, depletable energy, incapacitation
flag (set externally once energy falls below the community floor). -/
structure Player where
  id : ℕ
  abilities : List ℚ
  energy : ℚ
  incapacitated : Bool
deriving DecidableEq, Repr

instance : Inhabited Player := ⟨⟨0, [], 0, false⟩⟩

/-- The read-only snapshot passed to every entry point: the community
members and the current task list (a task is its difficulty vector,
identified by position). -/
structure Community where
  members : List Player
  tasks : List (List ℚ)
deriving DecidableEq, Repr

/-- Enumerate a list with indices starting at a given offset (Python
`enumerate`). -/
def enumFromIdx {α : Type} : ℕ → List α → List (ℕ × α)
  | _, [] => []
  | i, a :: as => (i, a) :: enumFromIdx (i + 1) as

/-- Stable insertion of an element into a list sorted by descending key:
the element goes before the first entry whose key is not larger, which is
exactly where Python's stable descending sort places it. -/
def insertDescBy {α : Type} (key : α → ℚ) (x : α) : List α → List α
  | [] => [x]
  | y :: ys => if key y ≤ key x then x :: y :: ys else y :: insertDescBy key x ys

/-- Stable sort by descending key, Python `list.sort(key=…, reverse=True)`. -/
def sortDescBy {α : Type} (key : α → ℚ) : List α → List α
  | [] => []
  | x :: xs => insertDescBy key x (sortDescBy key xs)

/-- First element minimizing a rational-valued function, none on the empty
list (ties broken toward the earlier element). -/
def argminQ {α : Type} (f : α → ℚ) : List α → Option α
  | [] => none
  | x :: xs =>
    match argminQ f xs with
    | none => some x
    | some y => if f x ≤ f y then some x else some y

/-- All injective assignments of `rows` successive row indices to distinct
column indices below `cols`, as lists whose entry at position r is the
column matched to row r. -/
def injections : ℕ → ℕ → List (List ℕ)
  | 0, _ => [[]]
  | n + 1, cols =>
    ((List.range cols).map (fun c =>
      (injections n cols).filterMap (fun rest =>
        if c ∈ rest then none else some (c :: rest)))).flatten

/-- Shuffle a list chunk by chunk: each contiguous block of `g` elements is
passed to the shuffle function and the results are concatenated, which is
the Python loop over slices `selected_tasks[i : i + group_size]`.  The fuel
argument (instantiated with the list length, an upper bound on the number
of iterations) only drives the recursion. -/
def chunkShuffleFuel (sh : List ℕ → List ℕ) (g : ℕ) : ℕ → List ℕ → List ℕ
  | _, [] => []
  | 0, l => l
  | fuel + 1, l =>
    if g = 0 then l
    else sh (l.take g) ++ chunkShuffleFuel sh g fuel (l.drop g)

namespace team3

/-- Embeds team_3 calculate_partnership_cost: the per-player cost of a
partnership, summing the unmet difficulty against the pointwise best of the
two ability vectors, halved. -/
def calculate_partnership_cost (player_abilities partner_abilities task : List ℚ) : ℚ :=
  (((List.range task.length).map (fun i =>
      max (task.getD i 0 - max (player_abilities.getD i 0) (partner_abilities.getD i 0)) 0)).sum) / 2

/-- Embeds team_3 calculate_solo_cost: unmet difficulty summed over the
task dimensions. -/
def calculate_solo_cost (player_abilities task : List ℚ) : ℚ :=
  ((List.range task.length).map (fun i =>
      max (task.getD i 0 - player_abilities.getD i 0) 0)).sum

/-- Embeds team_3 calculate_task_difficulty: per dimension, a 1.5 weight on
difficulty exceeding the community average, the raw signed difference
otherwise (Python zip truncates to the shorter list). -/
def calculate_task_difficulty (task community_avg_abilities : List ℚ) : ℚ :=
  ((task.zip community_avg_abilities).map (fun da =>
      if da.2 < da.1 then (da.1 - da.2) * (3 / 2) else da.1 - da.2)).sum

/-- Embeds team_3 get_community_stats.  The source indexes members[0] and
divides by the member count, so an empty member list raises: rendered as
none. -/
def get_community_stats (c : Community) : Option (List ℚ × ℚ) :=
  match c.members with
  | [] => none
  | m0 :: _ =>
    some ((List.range m0.abilities.length).map (fun i =>
            (c.members.map (fun m => m.abilities.getD i 0)).sum / (c.members.length : ℚ)),
          (c.members.map Player.energy).sum / (c.members.length : ℚ))

/-- Embeds the inner loop of team_3 phaseIpreferences for one task: every
other member with enough energy is screened by the cost conditions
(manageable for both, and below 60 percent of the caller's solo cost) and
kept with its priority score. -/
def phaseIcands (p : Player) (c : Community) (avgAb : List ℚ) (reserve : ℚ)
    (task : List ℚ) : List (ℕ × ℚ × ℚ) :=
  c.members.filterMap (fun partner =>
    if partner.id = p.id ∨ partner.energy < reserve then none
    else
      let energy_cost := calculate_partnership_cost p.abilities partner.abilities task
      let solo_cost := calculate_solo_cost p.abilities task
      if energy_cost < min (p.energy - reserve) (partner.energy - reserve) ∧
          energy_cost < solo_cost * (3 / 5) then
        some (partner.id, energy_cost,
          calculate_task_difficulty task avgAb + (10 - energy_cost) * 2 +
            min p.energy partner.energy * (1 / 2))
      else none)

/-- Embeds team_3 phaseIpreferences lines 92-137: per task (in order), sort
candidate partners by priority descending and keep the top two, flattening
into [task_index, partner_id] records. -/
def phaseIchoices (p : Player) (c : Community) (avgAb : List ℚ) (reserve : ℚ) :
    List (ℕ × ℕ) :=
  (enumFromIdx 0 c.tasks).flatMap (fun titask =>
    ((sortDescBy (fun x => x.2.2) (phaseIcands p c avgAb reserve titask.2)).take 2).map
      (fun x => (titask.1, x.1)))

/-- Embeds team_3 phaseIpreferences.  The shuffle of the injected random
source is passed as a list-permuting function.  An empty member list makes
get_community_stats raise, rendered as none. -/
def phaseIpreferences (sh : List (ℕ × ℕ) → List (ℕ × ℕ)) (p : Player)
    (c : Community) : Option (List (ℕ × ℕ)) :=
  match get_community_stats c with
  | none => none
  | some stats =>
    if p.energy < max 2 (stats.2 * (1 / 4)) then some []
    else
      some (sh (phaseIchoices p c stats.1
        (max 1 (min 3 ((c.tasks.length : ℚ) / (c.members.length : ℚ) * (1 / 2))))))

/-- Embeds team_3 evaluate_task_suitability.  The relative-strength term
divides by the number of dimensions with positive difficulty, so a task
with no positive dimension raises ZeroDivisionError (for an empty task the
earlier division by len(task) raises first): both rendered as none. -/
def evaluate_task_suitability (p : Player) (task community_avg_abilities : List ℚ) :
    Option (ℚ × ℚ) :=
  let energy_cost := calculate_solo_cost p.abilities task
  if task.filter (fun t => 0 < t) = [] then none
  else
    let ability_match : ℚ :=
      (((List.range task.length).filter (fun i =>
          task.getD i 0 ≤ p.abilities.getD i 0)).length : ℚ) / (task.length : ℚ)
    let relative_strength : ℚ :=
      (((List.range task.length).filterMap (fun i =>
          if 0 < task.getD i 0 then
            some (p.abilities.getD i 0 - community_avg_abilities.getD i 0)
          else none)).sum) / ((task.filter (fun t => 0 < t)).length : ℚ)
    some ((10 - energy_cost) * 2 + ability_match * 5 + relative_strength * 3, energy_cost)

/-- Embeds team_3 get_task_completion_rate (the conservative estimate
tasks divided by twice the member count). -/
def get_task_completion_rate (c : Community) : ℚ :=
  (c.tasks.length : ℚ) / (2 * (c.members.length : ℚ))

/-- Embeds the inline community-average computation at the top of team_3
phaseIIpreferences (one average per dimension of the calling player's
ability vector). -/
def communityAvgAbilitiesII (p : Player) (c : Community) : List ℚ :=
  (List.range p.abilities.length).map (fun i =>
    (c.members.map (fun m => m.abilities.getD i 0)).sum / (c.members.length : ℚ))

/-- Embeds the evaluation loop of team_3 phaseIIpreferences: every task is
scored by evaluate_task_suitability (a failure there aborts the whole
call), and kept with its index when the cost is below the available energy,
the suitability is positive, and the cost is at most 70 percent of the
player's energy. -/
def evalTasks (p : Player) (avg : List ℚ) (avail : ℚ) :
    ℕ → List (List ℚ) → Option (List (ℕ × ℚ × ℚ))
  | _, [] => some []
  | i, task :: rest =>
    match evaluate_task_suitability p task avg with
    | none => none
    | some sc =>
      match evalTasks p avg avail (i + 1) rest with
      | none => none
      | some evals =>
        if sc.2 < avail ∧ 0 < sc.1 ∧ sc.2 ≤ p.energy * (7 / 10) then
          some ((i, sc.1, sc.2) :: evals)
        else some evals

/-- Embeds the greedy acceptance loop of team_3 phaseIIpreferences: walk
the sorted evaluations, accept an entry when its cost fits the remaining
budget, subtract the cost, and stop right after the acceptance that drops
the remaining budget below the reserve. -/
def greedyTriples (reserve : ℚ) : ℚ → List (ℕ × ℚ × ℚ) → List (ℕ × ℚ × ℚ)
  | _, [] => []
  | remaining, e :: rest =>
    if e.2.2 ≤ remaining then
      if remaining - e.2.2 < reserve then [e]
      else e :: greedyTriples reserve (remaining - e.2.2) rest
    else greedyTriples reserve remaining rest

/-- Embeds the final randomization of team_3 phaseIIpreferences: shuffle
within contiguous groups of size max(1, n / 3) (Python floor division). -/
def groupShuffle (sh : List ℕ → List ℕ) (l : List ℕ) : List ℕ :=
  chunkShuffleFuel sh (max 1 (l.length / 3)) l.length l

/-- Embeds team_3 phaseIIpreferences up to (excluding) the final group
shuffle: the selected task indices in greedy acceptance order.  An empty
member list makes the inline average (or the completion rate) raise,
rendered as none, as is a failing task evaluation. -/
def phaseIIselect (p : Player) (c : Community) : Option (List ℕ) :=
  if c.members = [] then none
  else
    if p.energy < max 1 (min 3 (get_task_completion_rate c)) * 2 then some []
    else
      match evalTasks p (communityAvgAbilitiesII p c)
          (p.energy - max 1 (min 3 (get_task_completion_rate c))) 0 c.tasks with
      | none => none
      | some task_evaluations =>
        some ((greedyTriples (max 1 (min 3 (get_task_completion_rate c)))
          (p.energy - max 1 (min 3 (get_task_completion_rate c)))
          (sortDescBy (fun e => e.2.1) task_evaluations)).map (fun e => e.1))

/-- Embeds team_3 phaseIIpreferences: the greedy selection followed by the
within-group randomization. -/
def phaseIIpreferences (sh : List ℕ → List ℕ) (p : Player) (c : Community) :
    Option (List ℕ) :=
  (phaseIIselect p c).map (fun selected => groupShuffle sh selected)

end team3

namespace team6

/-- Embeds the team_6 module constant gating the phase I matching branch. -/
def PHASE_1_ASSIGNMENTS : Bool := false

/-- Embeds team_6 loss_phase1: unmet difficulty against the pointwise best
abilities (not halved), plus half the overdraft beyond the combined
energies, plus the per-dimension ability overshoot, plus the absolute
ability mismatch. -/
def loss_phase1 (task : List ℚ) (player1 player2 : Player) : ℚ :=
  let cost0 := ((List.range task.length).map (fun k =>
    max (task.getD k 0 - max (player1.abilities.getD k 0) (player2.abilities.getD k 0)) 0)).sum
  let cost1 := cost0 + max 0 (cost0 - player1.energy - player2.energy) / 2
  let cost2 := cost1 + ((List.range task.length).map (fun k =>
    max (max (player1.abilities.getD k 0) (player2.abilities.getD k 0) - task.getD k 0) 0)).sum
  cost2 + ((List.range task.length).map (fun k =>
    |player1.abilities.getD k 0 - player2.abilities.getD k 0|)).sum

/-- Embeds team_6 loss_phase2: unmet difficulty (iterating over the ability
dimensions, as the source does) plus the overdraft beyond current energy. -/
def loss_phase2 (task abilities : List ℚ) (current_energy : ℚ) : ℚ :=
  let cost := ((List.range abilities.length).map (fun k =>
    max (task.getD k 0 - abilities.getD k 0) 0)).sum
  cost + max 0 (cost - current_energy)

/-- Embeds the partnership enumeration of team_6 assign_phase1: all index
pairs (i, j) with i < j, in the source's nested-loop order. -/
def partnershipsList (num_members : ℕ) : List (ℕ × ℕ) :=
  (List.range num_members).flatMap (fun i =>
    ((List.range num_members).filter (fun j => i < j)).map (fun j => (i, j)))

/-- Embeds the cost matrix of team_6 assign_phase1: partnership columns
first (loss_phase1), then one column per individual member (loss_phase2). -/
def costMatrixEntry (tasks : List (List ℚ)) (members : List Player) (i j : ℕ) : ℚ :=
  let ps := partnershipsList members.length
  if j < ps.length then
    loss_phase1 (tasks.getD i [])
      (members.getD (ps.getD j (0, 0)).1 default)
      (members.getD (ps.getD j (0, 0)).2 default)
  else
    loss_phase2 (tasks.getD i [])
      (members.getD (j - ps.length) default).abilities
      (members.getD (j - ps.length) default).energy

/-- Total cost of an assignment, read as: the entry at position r of the
list is the column matched to row r. -/
def totalCost (cost : ℕ → ℕ → ℚ) (asg : List ℕ) : ℚ :=
  ((enumFromIdx 0 asg).map (fun rc => cost rc.1 rc.2)).sum

/-- Modelled behavior of the external library routine
scipy.optimize.linear_sum_assignment (third-party code, not part of this
repository): per its documented contract it returns a minimum-total-cost
matching of every row to a distinct column when rows ≤ columns, and raises
(rendered none) otherwise.  The embedding realizes that contract as an
exact argmin over all injective row-to-column assignments. -/
def linear_sum_assignment (cost : ℕ → ℕ → ℚ) (rows cols : ℕ) : Option (List ℕ) :=
  argminQ (totalCost cost) (injections rows cols)

/-- Embeds team_6 assign_phase1: solve the matching over the expanded cost
matrix, then decode each matched column into the partner ids or the single
member id, together with the matched task and its cell cost; the second
component is the matching's total cost. -/
def assign_phase1 (tasks : List (List ℚ)) (members : List Player) :
    Option (List (List ℕ × List ℚ × ℚ) × ℚ) :=
  let ps := partnershipsList members.length
  match linear_sum_assignment (costMatrixEntry tasks members) tasks.length
      (ps.length + members.length) with
  | none => none
  | some cols =>
    some ((enumFromIdx 0 cols).map (fun rc =>
      if rc.2 < ps.length then
        ([(members.getD (ps.getD rc.2 (0, 0)).1 default).id,
          (members.getD (ps.getD rc.2 (0, 0)).2 default).id],
         tasks.getD rc.1 [], costMatrixEntry tasks members rc.1 rc.2)
      else
        ([(members.getD (rc.2 - ps.length) default).id],
         tasks.getD rc.1 [], costMatrixEntry tasks members rc.1 rc.2)),
      totalCost (costMatrixEntry tasks members) cols)

/-- Embeds team_6 assign_phase2: the plain tasks-by-members matching; the
returned list holds, at position r, the member index matched to task r
(from which the source's member-to-task dictionary is read off). -/
def assign_phase2 (tasks : List (List ℚ)) (members : List Player) : Option (List ℕ) :=
  linear_sum_assignment (fun i j =>
    loss_phase2 (tasks.getD i []) (members.getD j default).abilities
      (members.getD j default).energy) tasks.length members.length

/-- Embeds team_6 phaseIpreferences: with the module constant False the
matching branch is dead and the initial empty list is returned; the decode
loop is embedded for completeness. -/
def phaseIpreferences (p : Player) (c : Community) : List (ℕ × ℕ) :=
  if PHASE_1_ASSIGNMENTS then
    match assign_phase1 c.tasks c.members with
    | none => []
    | some res =>
      res.1.flatMap (fun assignment =>
        if assignment.1.length = 2 ∧ p.id ∈ assignment.1 then
          c.tasks.flatMap (fun task =>
            if task = assignment.2.1 then
              [(c.tasks.indexOf task,
                if p.id = assignment.1.getD 0 0 then assignment.1.getD 1 0
                else assignment.1.getD 0 0)]
            else [])
        else [])
  else []

/-- Embeds the body of the try block of team_6 phaseIIpreferences: locate
the caller among the members (a miss raises ValueError: none), run the
phase-2 matching (infeasibility raises: none), and read off the task
matched to the caller, discarded when completing it would leave the caller
below the wait threshold 0. -/
def phaseIIinner (p : Player) (c : Community) : Option (List ℕ) :=
  match c.members.findIdx? (fun m => m = p) with
  | none => none
  | some player_index =>
    match assign_phase2 c.tasks c.members with
    | none => none
    | some cols =>
      match (enumFromIdx 0 cols).find? (fun rc => rc.2 = player_index) with
      | none => some []
      | some rc =>
        if p.energy - loss_phase2 (c.tasks.getD rc.1 []) p.abilities p.energy < 0 then
          some []
        else some [rc.1]

/-- Embeds team_6 phaseIIpreferences: negative energy short-circuits to an
empty list, and any failure inside the try block degrades to the empty
list of bids. -/
def phaseIIpreferences (p : Player) (c : Community) : List ℕ :=
  if p.energy < 0 then []
  else
    match phaseIIinner p c with
    | none => []
    | some bids => bids

end team6

/-- Modelled from the spec, for the refinement comparison of claim C2: the
partnership loss as the claim states it, partnershipCost (solo cost of the
elementwise max, halved) plus the three additive penalties. -/
def richLossSpecC2 (task a1 a2 : List ℚ) (e1 e2 : ℚ) : ℚ :=
  team3.calculate_partnership_cost a1 a2 task +
    max 0 (team3.calculate_partnership_cost a1 a2 task - e1 - e2) / 2 +
    ((List.range task.length).map (fun k =>
      max (max (a1.getD k 0) (a2.getD k 0) - task.getD k 0) 0)).sum +
    ((List.range task.length).map (fun k => |a1.getD k 0 - a2.getD k 0|)).sum

theorem insertDescBy_perm {α : Type} (key : α → ℚ) (x : α) (l : List α) :
    List.Perm (insertDescBy key x l) (x :: l) := by
  induction l with
  | nil => rfl
  | cons y ys ih =>
    by_cases h : key y ≤ key x
    · simp [insertDescBy, h]
    · simp only [insertDescBy, h, if_false]
      exact ((ih.cons y).trans (List.Perm.swap x y ys))

theorem sortDescBy_perm {α : Type} (key : α → ℚ) (l : List α) :
    List.Perm (sortDescBy key l) l := by
  induction l with
  | nil => rfl
  | cons x xs ih => exact (insertDescBy_perm key x (sortDescBy key xs)).trans (ih.cons x)

/-- Any record emitted by phaseIchoices names a community member as the
partner, one that is not the caller and whose energy is at least the
reserve (the source filter on line 98). -/
theorem phaseIchoices_partner {p : Player} {c : Community} {avgAb : List ℚ}
    {reserve : ℚ} {pr : ℕ × ℕ}
    (hpr : pr ∈ team3.phaseIchoices p c avgAb reserve) :
    ∃ partner ∈ c.members, partner.id = pr.2 ∧ partner.id ≠ p.id ∧
      reserve ≤ partner.energy := by
  unfold team3.phaseIchoices at hpr
  obtain ⟨titask, _, hpr2⟩ := List.mem_flatMap.mp hpr
  obtain ⟨x, hx2, hxeq⟩ := List.mem_map.mp hpr2
  have hxs : x ∈ sortDescBy (fun x => x.2.2)
      (team3.phaseIcands p c avgAb reserve titask.2) := List.take_subset 2 _ hx2
  have hxc : x ∈ team3.phaseIcands p c avgAb reserve titask.2 :=
    (sortDescBy_perm _ _).subset hxs
  unfold team3.phaseIcands at hxc
  obtain ⟨partner, hpmem, hf⟩ := List.mem_filterMap.mp hxc
  by_cases h1 : partner.id = p.id ∨ partner.energy < reserve
  · rw [if_pos h1] at hf
    exact absurd hf (by simp)
  · rw [if_neg h1] at hf
    push_neg at h1
    by_cases h2 : team3.calculate_partnership_cost p.abilities partner.abilities titask.2 <
        min (p.energy - reserve) (partner.energy - reserve) ∧
        team3.calculate_partnership_cost p.abilities partner.abilities titask.2 <
          team3.calculate_solo_cost p.abilities titask.2 * (3 / 5)
    · rw [if_pos h2] at hf
      injection hf with hf2
      subst hf2
      subst hxeq
      exact ⟨partner, hpmem, rfl, h1.1, h1.2⟩
    · rw [if_neg h2] at hf
      exact absurd hf (by simp)

/-- C7: for every task difficulty vector and ability vectors,
partnership cost never exceeds either agent's solo cost (proved with no
length hypotheses, hence in particular for equal-length vectors). -/
theorem C7_partnership_le_solo (task a1 a2 : List ℚ) :
    team3.calculate_partnership_cost a1 a2 task ≤ team3.calculate_solo_cost a1 task ∧
    team3.calculate_partnership_cost a1 a2 task ≤ team3.calculate_solo_cost a2 task := by
  have hpoint : ∀ (a b : List ℚ), ∀ i ∈ List.range task.length,
      max (task.getD i 0 - max (a.getD i 0) (b.getD i 0)) 0 ≤
      max (task.getD i 0 - a.getD i 0) 0 := by
    intro a b i _
    apply max_le_max_right
    have : a.getD i 0 ≤ max (a.getD i 0) (b.getD i 0) := le_max_left _ _
    linarith
  have hnn : ∀ (a b : List ℚ), (0:ℚ) ≤
      ((List.range task.length).map (fun i =>
        max (task.getD i 0 - max (a.getD i 0) (b.getD i 0)) 0)).sum := by
    intro a b
    apply List.sum_nonneg
    intro x hx
    simp only [List.mem_map] at hx
    obtain ⟨i, _, rfl⟩ := hx
    exact le_max_right _ _
  constructor
  · have h1 := List.sum_le_sum (hpoint a1 a2)
    have h2 := hnn a1 a2
    unfold team3.calculate_partnership_cost team3.calculate_solo_cost
    linarith
  · have h1 := List.sum_le_sum (hpoint a2 a1)
    have h2 := hnn a1 a2
    have hcomm : ((List.range task.length).map (fun i =>
        max (task.getD i 0 - max (a1.getD i 0) (a2.getD i 0)) 0)).sum =
        ((List.range task.length).map (fun i =>
        max (task.getD i 0 - max (a2.getD i 0) (a1.getD i 0)) 0)).sum := by
      congr 1
      apply List.map_congr_left
      intro i _
      rw [max_comm (a1.getD i 0) (a2.getD i 0)]
    unfold team3.calculate_partnership_cost team3.calculate_solo_cost
    rw [hcomm]
    linarith

/-- C8: solo cost is non-negative, and it is zero exactly when the agent
meets or exceeds the task on every dimension. -/
theorem C8_solo_cost_nonneg_zero_iff (task abilities : List ℚ) :
    0 ≤ team3.calculate_solo_cost abilities task ∧
    (team3.calculate_solo_cost abilities task = 0 ↔
      ∀ i < task.length, task.getD i 0 ≤ abilities.getD i 0) := by
  have hnn : ∀ x ∈ (List.range task.length).map (fun i =>
      max (task.getD i 0 - abilities.getD i 0) 0), 0 ≤ x := by
    intro x hx
    simp only [List.mem_map] at hx
    obtain ⟨i, _, rfl⟩ := hx
    exact le_max_right _ _
  refine ⟨List.sum_nonneg hnn, ?_⟩
  constructor
  · intro h0 i hi
    by_contra hlt
    push_neg at hlt
    have hykey : max (task.getD i 0 - abilities.getD i 0) 0 ∈
        (List.range task.length).map (fun i =>
          max (task.getD i 0 - abilities.getD i 0) 0) :=
      List.mem_map_of_mem _ (List.mem_range.mpr hi)
    have hpos : 0 < max (task.getD i 0 - abilities.getD i 0) 0 :=
      lt_max_of_lt_left (by linarith)
    have := List.single_le_sum hnn _ hykey
    unfold team3.calculate_solo_cost at h0
    linarith
  · intro hall
    unfold team3.calculate_solo_cost
    apply List.sum_eq_zero
    intro x hx
    simp only [List.mem_map, List.mem_range] at hx
    obtain ⟨i, hi, rfl⟩ := hx
    have := hall i hi
    exact max_eq_right (sub_nonpos.mpr this)

/-- C10: the optimal-solver module's phaseIpreferences always returns the
empty list, since the matching-and-decode branch is guarded by the module
constant PHASE_1_ASSIGNMENTS, which is False. -/
theorem C10_team6_phaseI_empty (p : Player) (c : Community) :
    team6.phaseIpreferences p c = [] := rfl

/-- C2 counterexample: on task [2], two agents of abilities [0] and energy
10 each, the optimal solver's loss is 2 (the full unmet difficulty), while
the claimed formula built on partnershipCost (the halved cost) gives 1. -/
theorem C2_counterexample :
    team6.loss_phase1 [2] ⟨0, [0], 10, false⟩ ⟨1, [0], 10, false⟩ = 2 ∧
    richLossSpecC2 [2] [0] [0] 10 10 = 1 ∧
    team6.loss_phase1 [2] ⟨0, [0], 10, false⟩ ⟨1, [0], 10, false⟩ ≠
      richLossSpecC2 [2] [0] [0] 10 10 := by
  have h1 : team6.loss_phase1 [2] ⟨0, [0], 10, false⟩ ⟨1, [0], 10, false⟩ = 2 := by
    unfold team6.loss_phase1
    norm_num [List.range_succ]
  have h2 : richLossSpecC2 [2] [0] [0] 10 10 = 1 := by
    unfold richLossSpecC2 team3.calculate_partnership_cost
    norm_num [List.range_succ]
  refine ⟨h1, h2, ?_⟩
  rw [h1, h2]
  norm_num

/-- C2 (amended): the optimal solver's partnership loss equals the FULL
soloCost of the elementwise max of the two ability vectors — that is,
twice partnershipCost, not partnershipCost itself — plus half of the
amount by which that full cost exceeds e1+e2 (clamped at 0), plus the
per-dimension overshoot of the pair's best abilities over the task, plus
the sum of absolute per-dimension ability differences. -/
theorem C2_loss_phase1_decomposition (task : List ℚ) (p1 p2 : Player) :
    team6.loss_phase1 task p1 p2 =
      2 * team3.calculate_partnership_cost p1.abilities p2.abilities task +
      max 0 (2 * team3.calculate_partnership_cost p1.abilities p2.abilities task
        - p1.energy - p2.energy) / 2 +
      ((List.range task.length).map (fun k =>
        max (max (p1.abilities.getD k 0) (p2.abilities.getD k 0) - task.getD k 0) 0)).sum +
      ((List.range task.length).map (fun k =>
        |p1.abilities.getD k 0 - p2.abilities.getD k 0|)).sum := by
  unfold team6.loss_phase1 team3.calculate_partnership_cost
  ring_nf

/-- C4: an agent whose energy is strictly below max(2, a quarter of the
community average energy) gets an empty phase I preference list from the
heuristic, whatever the tasks and potential partners. -/
theorem C4_low_energy_phaseI_empty (sh : List (ℕ × ℕ) → List (ℕ × ℕ))
    (p : Player) (c : Community) (avgAb : List ℚ) (avgEn : ℚ)
    (hst : team3.get_community_stats c = some (avgAb, avgEn))
    (hg : p.energy < max 2 (avgEn * (1 / 4))) :
    team3.phaseIpreferences sh p c = some [] := by
  have h : team3.phaseIpreferences sh p c =
      if p.energy < max 2 (avgEn * (1 / 4)) then some [] else
        some (sh (team3.phaseIchoices p c avgAb
          (max 1 (min 3 ((c.tasks.length : ℚ) / (c.members.length : ℚ) * (1 / 2)))))) := by
    unfold team3.phaseIpreferences
    rw [hst]
  rw [h, if_pos hg]

/-- C4 witness: a community whose single member has energy 10 (average 10,
floor 2.5) and a caller of energy 1 receives an empty phase I list. -/
theorem C4_witness :
    team3.get_community_stats ⟨[⟨1, [1], 10, false⟩], []⟩ = some ([1], 10) ∧
    (1 : ℚ) < max 2 ((10 : ℚ) * (1 / 4)) ∧
    team3.phaseIpreferences id ⟨5, [1], 1, false⟩ ⟨[⟨1, [1], 10, false⟩], []⟩ = some [] := by
  have hst : team3.get_community_stats ⟨[⟨1, [1], 10, false⟩], []⟩ = some ([1], 10) := by
    unfold team3.get_community_stats
    norm_num [List.range_succ]
  exact ⟨hst, by norm_num, C4_low_energy_phaseI_empty id _ _ _ _ hst (by norm_num)⟩

set_option maxHeartbeats 1000000 in
/-- C6 counterexample: the heuristic phase I filters partners only by id
and energy, never by the incapacitation flag, so a community whose second
member is incapacitated yet energetic still gets offered as a partner:
caller of abilities [0], members of ids 0 and 1 (the latter incapacitated
with energy 10), one task [5], identity shuffle. -/
theorem C6_counterexample :
    team3.phaseIpreferences id ⟨0, [0], 10, false⟩
      ⟨[⟨0, [0], 10, false⟩, ⟨1, [5], 10, true⟩], [[5]]⟩ = some [(0, 1)] ∧
    (⟨1, [5], 10, true⟩ : Player) ∈
      (⟨[⟨0, [0], 10, false⟩, ⟨1, [5], 10, true⟩], [[5]]⟩ : Community).members ∧
    (⟨1, [5], 10, true⟩ : Player).id = 1 ∧
    (⟨1, [5], 10, true⟩ : Player).incapacitated = true := by
  refine ⟨?_, by simp, rfl, rfl⟩
  have hst : team3.get_community_stats
      ⟨[⟨0, [0], 10, false⟩, ⟨1, [5], 10, true⟩], [[5]]⟩ = some ([5/2], 10) := by
    unfold team3.get_community_stats
    norm_num [List.range_succ]
  have hcands : team3.phaseIcands ⟨0, [0], 10, false⟩
      ⟨[⟨0, [0], 10, false⟩, ⟨1, [5], 10, true⟩], [[5]]⟩ [5/2] 1 [5] =
      [(1, 0, 15/4 + 20 + 5)] := by
    unfold team3.phaseIcands
    norm_num [List.range_succ, List.filterMap_cons, team3.calculate_partnership_cost,
      team3.calculate_solo_cost, team3.calculate_task_difficulty]
  have hchoices : team3.phaseIchoices ⟨0, [0], 10, false⟩
      ⟨[⟨0, [0], 10, false⟩, ⟨1, [5], 10, true⟩], [[5]]⟩ [5/2] 1 = [(0, 1)] := by
    unfold team3.phaseIchoices
    rw [show enumFromIdx 0 (⟨[⟨0, [0], 10, false⟩, ⟨1, [5], 10, true⟩], [[5]]⟩ : Community).tasks
        = [(0, [5])] from rfl]
    rw [List.flatMap_cons, List.flatMap_nil]
    simp only [hcands, sortDescBy, insertDescBy, List.take, List.map, List.append_nil]
  unfold team3.phaseIpreferences
  rw [hst]
  have hguard : ¬ ((10:ℚ) < max 2 (10 * (1/4))) := by norm_num
  simp only [List.length_cons, List.length_nil, Nat.cast_ofNat, Nat.cast_one, id_eq]
  rw [if_neg hguard]
  norm_num
  exact hchoices

/-- C6 (amended): every [task_index, partner_id] pair returned by the
heuristic phase I names a partner other than the caller whose energy is at
least the minimum energy reserve (which is at least 1); consequently,
provided agent ids are unique and every incapacitated agent's energy lies
below 1 (the incapacitation floor sits below the reserve), no returned
partner id refers to an incapacitated agent. -/
theorem C6_phaseI_partner_not_self_not_incapacitated
    (sh : List (ℕ × ℕ) → List (ℕ × ℕ)) (hsh : ∀ l, List.Perm (sh l) l)
    (p : Player) (c : Community) (out : List (ℕ × ℕ))
    (hnd : (c.members.map Player.id).Nodup)
    (hinc : ∀ m ∈ c.members, m.incapacitated = true → m.energy < 1)
    (hout : team3.phaseIpreferences sh p c = some out) :
    ∀ pr ∈ out, pr.2 ≠ p.id ∧
      ∀ m ∈ c.members, m.id = pr.2 → m.incapacitated = false := by
  intro pr hpr
  cases hstats : team3.get_community_stats c with
  | none =>
    have hnone : team3.phaseIpreferences sh p c = none := by
      unfold team3.phaseIpreferences
      rw [hstats]
    rw [hnone] at hout
    exact absurd hout (by simp)
  | some st =>
    obtain ⟨avgAb, avgEn⟩ := st
    have hred : team3.phaseIpreferences sh p c =
        if p.energy < max 2 (avgEn * (1 / 4)) then some [] else
          some (sh (team3.phaseIchoices p c avgAb
            (max 1 (min 3 ((c.tasks.length : ℚ) / (c.members.length : ℚ) * (1 / 2)))))) := by
      unfold team3.phaseIpreferences
      rw [hstats]
    rw [hred] at hout
    by_cases hg : p.energy < max 2 (avgEn * (1 / 4))
    · rw [if_pos hg] at hout
      injection hout with h
      subst h
      exact absurd hpr (by simp)
    · rw [if_neg hg] at hout
      injection hout with h
      subst h
      have hmem : pr ∈ team3.phaseIchoices p c avgAb
          (max 1 (min 3 ((c.tasks.length : ℚ) / (c.members.length : ℚ) * (1 / 2)))) :=
        (hsh _).subset hpr
      obtain ⟨partner, hpm, hpid, hpne, hpen⟩ := phaseIchoices_partner hmem
      have hres1 : (1 : ℚ) ≤
          max 1 (min 3 ((c.tasks.length : ℚ) / (c.members.length : ℚ) * (1 / 2))) :=
        le_max_left _ _
      refine ⟨by rw [← hpid]; exact hpne, ?_⟩
      intro m hm hmid
      have heq : m = partner :=
        List.inj_on_of_nodup_map hnd hm hpm (by rw [hmid, ← hpid])
      by_contra hbad
      have htrue : m.incapacitated = true := by
        cases hb : m.incapacitated
        · exact absurd hb hbad
        · rfl
      have hlt := hinc m hm htrue
      rw [heq] at hlt
      linarith

set_option maxHeartbeats 1000000 in
/-- C6 witness: in a community of two non-incapacitated agents with unique
ids, the caller receives the pair (0, 1) and it satisfies both conclusions. -/
theorem C6_phaseI_partner_witness :
    team3.phaseIpreferences id ⟨0, [0], 10, false⟩
      ⟨[⟨0, [0], 10, false⟩, ⟨1, [5], 10, false⟩], [[5]]⟩ = some [(0, 1)] ∧
    (∀ pr ∈ [((0:ℕ), (1:ℕ))], pr.2 ≠ (⟨0, [0], 10, false⟩ : Player).id ∧
      ∀ m ∈ (⟨[⟨0, [0], 10, false⟩, ⟨1, [5], 10, false⟩], [[5]]⟩ : Community).members,
        m.id = pr.2 → m.incapacitated = false) := by
  have hst : team3.get_community_stats
      ⟨[⟨0, [0], 10, false⟩, ⟨1, [5], 10, false⟩], [[5]]⟩ = some ([5/2], 10) := by
    unfold team3.get_community_stats
    norm_num [List.range_succ]
  have hcands : team3.phaseIcands ⟨0, [0], 10, false⟩
      ⟨[⟨0, [0], 10, false⟩, ⟨1, [5], 10, false⟩], [[5]]⟩ [5/2] 1 [5] =
      [(1, 0, 15/4 + 20 + 5)] := by
    unfold team3.phaseIcands
    norm_num [List.range_succ, List.filterMap_cons, team3.calculate_partnership_cost,
      team3.calculate_solo_cost, team3.calculate_task_difficulty]
  have hchoices : team3.phaseIchoices ⟨0, [0], 10, false⟩
      ⟨[⟨0, [0], 10, false⟩, ⟨1, [5], 10, false⟩], [[5]]⟩ [5/2] 1 = [(0, 1)] := by
    unfold team3.phaseIchoices
    rw [show enumFromIdx 0
        (⟨[⟨0, [0], 10, false⟩, ⟨1, [5], 10, false⟩], [[5]]⟩ : Community).tasks
        = [(0, [5])] from rfl]
    rw [List.flatMap_cons, List.flatMap_nil]
    simp only [hcands, sortDescBy, insertDescBy, List.take, List.map, List.append_nil]
  have hcomp : team3.phaseIpreferences id ⟨0, [0], 10, false⟩
      ⟨[⟨0, [0], 10, false⟩, ⟨1, [5], 10, false⟩], [[5]]⟩ = some [(0, 1)] := by
    unfold team3.phaseIpreferences
    rw [hst]
    have hguard : ¬ ((10:ℚ) < max 2 (10 * (1/4))) := by norm_num
    simp only [List.length_cons, List.length_nil, Nat.cast_ofNat, Nat.cast_one, id_eq]
    rw [if_neg hguard]
    norm_num
    exact hchoices
  refine ⟨hcomp, ?_⟩
  exact C6_phaseI_partner_not_self_not_incapacitated id (fun l => List.Perm.refl l)
    ⟨0, [0], 10, false⟩ ⟨[⟨0, [0], 10, false⟩, ⟨1, [5], 10, false⟩], [[5]]⟩ [(0, 1)]
    (by simp) (by simp) hcomp

/-- The task-suitability evaluation fails (raises in the source) exactly
when no dimension of the task has positive difficulty. -/
theorem evaluate_none_iff (p : Player) (avg t : List ℚ) :
    team3.evaluate_task_suitability p t avg = none ↔ t.filter (fun x => 0 < x) = [] := by
  unfold team3.evaluate_task_suitability
  by_cases h : t.filter (fun x => 0 < x) = []
  · simp [h]
  · simp [h]

/-- The phase II evaluation loop succeeds when every task has a positive
difficulty dimension. -/
theorem evalTasks_isSome (p : Player) (avg : List ℚ) (avail : ℚ)
    (ts : List (List ℚ)) (i : ℕ)
    (hts : ∀ t ∈ ts, t.filter (fun x => 0 < x) ≠ []) :
    (team3.evalTasks p avg avail i ts).isSome := by
  induction ts generalizing i with
  | nil => rfl
  | cons t rest ih =>
    cases hev : team3.evaluate_task_suitability p t avg with
    | none => exact absurd ((evaluate_none_iff p avg t).mp hev) (hts t (by simp))
    | some sc =>
      have hrest := ih (fun t ht => hts t (by simp [ht])) (i := i + 1)
      cases hr : team3.evalTasks p avg avail (i + 1) rest with
      | none => rw [hr] at hrest; exact absurd hrest (by simp)
      | some evals =>
        simp only [team3.evalTasks, hev, hr]
        split <;> rfl

/-- The phase II greedy selection succeeds on a nonempty member list when
every task has a positive difficulty dimension. -/
theorem phaseIIselect_isSome (p : Player) (c : Community) (hm : c.members ≠ [])
    (hts : ∀ t ∈ c.tasks, t.filter (fun x => 0 < x) ≠ []) :
    (team3.phaseIIselect p c).isSome := by
  unfold team3.phaseIIselect
  rw [if_neg hm]
  by_cases hg : p.energy < max 1 (min 3 (team3.get_task_completion_rate c)) * 2
  · rw [if_pos hg]
    rfl
  · rw [if_neg hg]
    have hsome := evalTasks_isSome p (team3.communityAvgAbilitiesII p c)
      (p.energy - max 1 (min 3 (team3.get_task_completion_rate c))) c.tasks 0 hts
    cases hr : team3.evalTasks p (team3.communityAvgAbilitiesII p c)
        (p.energy - max 1 (min 3 (team3.get_task_completion_rate c))) 0 c.tasks with
    | none => rw [hr] at hsome; exact absurd hsome (by simp)
    | some evals => rfl

/-- Community statistics succeed exactly on a nonempty member list. -/
theorem get_community_stats_isSome (c : Community) (hm : c.members ≠ []) :
    (team3.get_community_stats c).isSome := by
  cases hc : c.members with
  | nil => exact absurd hc hm
  | cons m0 rest =>
    unfold team3.get_community_stats
    rw [hc]
    rfl

set_option maxHeartbeats 1000000 in
/-- C1 counterexample: the heuristic phaseIIpreferences raises (a
ZeroDivisionError inside evaluate_task_suitability, rendered none) for a
community containing a task whose difficulty vector is all zeros, even
with a well-energized caller, so the never-raise contract fails as claimed. -/
theorem C1_counterexample :
    team3.phaseIIpreferences id ⟨0, [1], 10, false⟩ ⟨[⟨0, [1], 10, false⟩], [[0]]⟩ = none := by
  have hsel : team3.phaseIIselect ⟨0, [1], 10, false⟩ ⟨[⟨0, [1], 10, false⟩], [[0]]⟩ = none := by
    unfold team3.phaseIIselect
    rw [if_neg (by simp)]
    rw [if_neg (by norm_num [team3.get_task_completion_rate])]
    have hev : team3.evaluate_task_suitability ⟨0, [1], 10, false⟩ [0]
        (team3.communityAvgAbilitiesII ⟨0, [1], 10, false⟩
          ⟨[⟨0, [1], 10, false⟩], [[0]]⟩) = none := by
      rw [evaluate_none_iff]
      decide
    simp only [team3.evalTasks, hev]
  unfold team3.phaseIIpreferences
  rw [hsel]
  rfl

/-- C1 (amended): for a community with at least one member the entry
points degrade rather than raise — team_3 phase I always returns a list;
team_3 phase II returns a list provided every task has some positive
difficulty dimension (an all-zero task makes it raise a
ZeroDivisionError, the failure exhibited by the counterexample); team_6
phase I always returns the empty list and team_6 phase II returns the
empty list whenever its try block fails internally. -/
theorem C1_entry_points_degrade (shA : List (ℕ × ℕ) → List (ℕ × ℕ))
    (shB : List ℕ → List ℕ) (p : Player) (c : Community) (hm : c.members ≠ []) :
    (team3.phaseIpreferences shA p c).isSome ∧
    ((∀ t ∈ c.tasks, t.filter (fun x => 0 < x) ≠ []) →
      (team3.phaseIIpreferences shB p c).isSome) ∧
    team6.phaseIpreferences p c = [] ∧
    (team6.phaseIIinner p c = none → team6.phaseIIpreferences p c = []) := by
  refine ⟨?_, ?_, rfl, ?_⟩
  · have hst := get_community_stats_isSome c hm
    cases hstats : team3.get_community_stats c with
    | none => rw [hstats] at hst; exact absurd hst (by simp)
    | some st =>
      unfold team3.phaseIpreferences
      rw [hstats]
      dsimp only
      split <;> rfl
  · intro hts
    have hsel := phaseIIselect_isSome p c hm hts
    unfold team3.phaseIIpreferences
    cases hr : team3.phaseIIselect p c with
    | none => rw [hr] at hsel; exact absurd hsel (by simp)
    | some sel => rfl
  · intro hinner
    unfold team6.phaseIIpreferences
    by_cases he : p.energy < 0
    · rw [if_pos he]
    · rw [if_neg he, hinner]

/-- C1 witness: a one-member community with the single task [2]
instantiates every hypothesis and conclusion of the amended theorem. -/
theorem C1_entry_points_degrade_witness :
    ((⟨[⟨0, [1], 10, false⟩], [[2]]⟩ : Community).members ≠ []) ∧
    ((team3.phaseIpreferences id ⟨0, [1], 10, false⟩
        ⟨[⟨0, [1], 10, false⟩], [[2]]⟩).isSome ∧
      ((∀ t ∈ (⟨[⟨0, [1], 10, false⟩], [[2]]⟩ : Community).tasks,
          t.filter (fun x => 0 < x) ≠ []) →
        (team3.phaseIIpreferences id ⟨0, [1], 10, false⟩
          ⟨[⟨0, [1], 10, false⟩], [[2]]⟩).isSome) ∧
      team6.phaseIpreferences ⟨0, [1], 10, false⟩ ⟨[⟨0, [1], 10, false⟩], [[2]]⟩ = [] ∧
      (team6.phaseIIinner ⟨0, [1], 10, false⟩ ⟨[⟨0, [1], 10, false⟩], [[2]]⟩ = none →
        team6.phaseIIpreferences ⟨0, [1], 10, false⟩
          ⟨[⟨0, [1], 10, false⟩], [[2]]⟩ = [])) :=
  ⟨by simp, C1_entry_points_degrade id id ⟨0, [1], 10, false⟩
    ⟨[⟨0, [1], 10, false⟩], [[2]]⟩ (by simp)⟩

/-- A successful task evaluation reports exactly the solo cost of the task
as its cost component. -/
theorem evaluate_some_cost (p : Player) (avg t : List ℚ) (sc : ℚ × ℚ)
    (h : team3.evaluate_task_suitability p t avg = some sc) :
    sc.2 = team3.calculate_solo_cost p.abilities t := by
  unfold team3.evaluate_task_suitability at h
  by_cases hc : t.filter (fun x => 0 < x) = []
  · simp [hc] at h
  · simp only [if_neg hc] at h
    injection h with h2
    rw [← h2]

/-- Every entry of a successful phase II evaluation carries, at index i,
the solo cost of task i, and satisfies the three screening conditions of
the source filter (cost below the available energy, positive suitability,
cost at most 70 percent of the energy). -/
theorem evalTasks_mem (p : Player) (avg : List ℚ) (avail : ℚ) :
    ∀ (ts : List (List ℚ)) (i : ℕ) (evals : List (ℕ × ℚ × ℚ)),
      team3.evalTasks p avg avail i ts = some evals →
      ∀ e ∈ evals, i ≤ e.1 ∧ e.1 - i < ts.length ∧
        e.2.2 = team3.calculate_solo_cost p.abilities (ts.getD (e.1 - i) []) ∧
        e.2.2 < avail ∧ 0 < e.2.1 ∧ e.2.2 ≤ p.energy * (7 / 10) := by
  intro ts
  induction ts with
  | nil =>
    intro i evals h e he
    simp only [team3.evalTasks] at h
    injection h with h2
    subst h2
    exact absurd he (by simp)
  | cons t rest ih =>
    intro i evals h e he
    cases hev : team3.evaluate_task_suitability p t avg with
    | none =>
      simp only [team3.evalTasks, hev] at h
      exact absurd h (by simp)
    | some sc =>
      cases hr : team3.evalTasks p avg avail (i + 1) rest with
      | none =>
        simp only [team3.evalTasks, hev, hr] at h
        exact absurd h (by simp)
      | some evals2 =>
        simp only [team3.evalTasks, hev, hr] at h
        have hcost := evaluate_some_cost p avg t sc hev
        by_cases hcond : sc.2 < avail ∧ 0 < sc.1 ∧ sc.2 ≤ p.energy * (7 / 10)
        · rw [if_pos hcond] at h
          injection h with h2
          subst h2
          rcases List.mem_cons.mp he with he | he
          · subst he
            refine ⟨le_refl _, by simp, ?_, hcond.1, hcond.2.1, hcond.2.2⟩
            simpa using hcost
          · obtain ⟨h1, h2, h3, h4, h5, h6⟩ := ih (i + 1) evals2 hr e he
            refine ⟨by omega, by simp; omega, ?_, h4, h5, h6⟩
            have hk : e.1 - i = (e.1 - (i + 1)) + 1 := by omega
            rw [hk, List.getD_cons_succ]
            exact h3
        · rw [if_neg hcond] at h
          injection h with h2
          subst h2
          obtain ⟨h1, h2, h3, h4, h5, h6⟩ := ih (i + 1) evals2 hr e he
          refine ⟨by omega, by simp; omega, ?_, h4, h5, h6⟩
          have hk : e.1 - i = (e.1 - (i + 1)) + 1 := by omega
          rw [hk, List.getD_cons_succ]
          exact h3

/-- The greedy acceptance loop only returns entries of its input list. -/
theorem greedyTriples_subset (reserve : ℚ) :
    ∀ (l : List (ℕ × ℚ × ℚ)) (rem : ℚ),
      ∀ e ∈ team3.greedyTriples reserve rem l, e ∈ l := by
  intro l
  induction l with
  | nil => intro rem e he; simp [team3.greedyTriples] at he
  | cons x rest ih =>
    intro rem e he
    unfold team3.greedyTriples at he
    by_cases h1 : x.2.2 ≤ rem
    · rw [if_pos h1] at he
      by_cases h2 : rem - x.2.2 < reserve
      · rw [if_pos h2] at he
        simp at he
        simp [he]
      · rw [if_neg h2] at he
        rcases List.mem_cons.mp he with he | he
        · simp [he]
        · exact List.mem_cons_of_mem x (ih (rem - x.2.2) e he)
    · rw [if_neg h1] at he
      exact List.mem_cons_of_mem x (ih rem e he)

/-- The invariant of the greedy acceptance loop: after any accepted item
other than the last, the remaining budget still covers the reserve (the
source breaks out right after the acceptance that dips below it). -/
theorem greedyTriples_budget (reserve : ℚ) :
    ∀ (l : List (ℕ × ℚ × ℚ)) (rem : ℚ) (k : ℕ),
      k + 1 < (team3.greedyTriples reserve rem l).length →
      reserve ≤ rem -
        (((team3.greedyTriples reserve rem l).take (k + 1)).map (fun e => e.2.2)).sum := by
  intro l
  induction l with
  | nil => intro rem k hk; simp [team3.greedyTriples] at hk
  | cons x rest ih =>
    intro rem k hk
    unfold team3.greedyTriples at hk ⊢
    by_cases h1 : x.2.2 ≤ rem
    · rw [if_pos h1] at hk ⊢
      by_cases h2 : rem - x.2.2 < reserve
      · rw [if_pos h2] at hk
        simp at hk
      · rw [if_neg h2] at hk ⊢
        push_neg at h2
        cases k with
        | zero =>
          simp only [List.take, List.map, List.sum_cons]
          simp
          linarith
        | succ k2 =>
          have hk2 : k2 + 1 < (team3.greedyTriples reserve (rem - x.2.2) rest).length := by
            simpa using hk
          have := ih (rem - x.2.2) k2 hk2
          simp only [List.take, List.map, List.sum_cons]
          linarith
    · rw [if_neg h1] at hk ⊢
      exact ih rem k hk

/-- The chunkwise shuffle permutes the whole list whenever the shuffle
function permutes each chunk. -/
theorem chunkShuffleFuel_perm (sh : List ℕ → List ℕ)
    (hsh : ∀ l, List.Perm (sh l) l) (g : ℕ) :
    ∀ (fuel : ℕ) (l : List ℕ), l.length ≤ fuel →
      List.Perm (chunkShuffleFuel sh g fuel l) l := by
  intro fuel
  induction fuel with
  | zero =>
    intro l hl
    have : l = [] := List.length_eq_zero.mp (Nat.le_zero.mp hl)
    subst this
    rfl
  | succ n ih =>
    intro l hl
    cases l with
    | nil => rfl
    | cons a as =>
      unfold chunkShuffleFuel
      by_cases hg : g = 0
      · rw [if_pos hg]
      · rw [if_neg hg]
        have hdrop : ((a :: as).drop g).length ≤ n := by
          rw [List.length_drop]
          simp only [List.length_cons] at hl ⊢
          omega
        exact ((hsh _).append (ih _ hdrop)).trans
          (by rw [List.take_append_drop])

/-- The group randomization of phase II is a permutation of its input. -/
theorem groupShuffle_perm (sh : List ℕ → List ℕ)
    (hsh : ∀ l, List.Perm (sh l) l) (l : List ℕ) :
    List.Perm (team3.groupShuffle sh l) l :=
  chunkShuffleFuel_perm sh hsh _ l.length l le_rfl

/-- C5: every task index returned by the heuristic phase II has solo cost
at most 70 percent of the caller's energy, and the greedy selection's
running budget (energy minus reserve, decremented by each accepted task's
cost) stays at or above the reserve after every accepted item but
possibly the last. -/
theorem C5_phaseII_cost_ceiling_and_budget (sh : List ℕ → List ℕ)
    (hsh : ∀ l, List.Perm (sh l) l)
    (p : Player) (c : Community) (out sel : List ℕ)
    (hsel : team3.phaseIIselect p c = some sel)
    (hout : team3.phaseIIpreferences sh p c = some out) :
    (∀ i ∈ out, team3.calculate_solo_cost p.abilities (c.tasks.getD i []) ≤
      p.energy * (7 / 10)) ∧
    (∀ k, k + 1 < sel.length →
      max 1 (min 3 (team3.get_task_completion_rate c)) ≤
        p.energy - max 1 (min 3 (team3.get_task_completion_rate c)) -
          ((sel.take (k + 1)).map (fun i =>
            team3.calculate_solo_cost p.abilities (c.tasks.getD i []))).sum) := by
  have hout2 : out = team3.groupShuffle sh sel := by
    unfold team3.phaseIIpreferences at hout
    rw [hsel] at hout
    simpa using hout.symm
  by_cases hm : c.members = []
  · unfold team3.phaseIIselect at hsel
    rw [if_pos hm] at hsel
    exact absurd hsel (by simp)
  unfold team3.phaseIIselect at hsel
  rw [if_neg hm] at hsel
  by_cases hg : p.energy < max 1 (min 3 (team3.get_task_completion_rate c)) * 2
  · rw [if_pos hg] at hsel
    injection hsel with h2
    subst h2
    have hout3 : out = [] := by
      rw [hout2]
      rfl
    subst hout3
    exact ⟨by simp, by simp⟩
  rw [if_neg hg] at hsel
  cases hev : team3.evalTasks p (team3.communityAvgAbilitiesII p c)
      (p.energy - max 1 (min 3 (team3.get_task_completion_rate c))) 0 c.tasks with
  | none =>
    rw [hev] at hsel
    exact absurd hsel (by simp)
  | some evals =>
    rw [hev] at hsel
    injection hsel with h2
    subst h2
    constructor
    · intro i hi
      rw [hout2] at hi
      have hi2 : i ∈ (team3.greedyTriples (max 1 (min 3 (team3.get_task_completion_rate c)))
          (p.energy - max 1 (min 3 (team3.get_task_completion_rate c)))
          (sortDescBy (fun e => e.2.1) evals)).map (fun e => e.1) :=
        (groupShuffle_perm sh hsh _).subset hi
      obtain ⟨e, he, heq⟩ := List.mem_map.mp hi2
      have he2 : e ∈ sortDescBy (fun e => e.2.1) evals :=
        greedyTriples_subset _ _ _ e he
      have he3 : e ∈ evals := (sortDescBy_perm _ _).subset he2
      obtain ⟨_, _, hc3, _, _, hc6⟩ :=
        evalTasks_mem p (team3.communityAvgAbilitiesII p c)
          (p.energy - max 1 (min 3 (team3.get_task_completion_rate c)))
          c.tasks 0 evals hev e he3
      rw [← heq]
      simp only [Nat.sub_zero] at hc3
      rw [← hc3]
      exact hc6
    · intro k hk
      rw [List.length_map] at hk
      have hbud := greedyTriples_budget
        (max 1 (min 3 (team3.get_task_completion_rate c)))
        (sortDescBy (fun e => e.2.1) evals)
        (p.energy - max 1 (min 3 (team3.get_task_completion_rate c))) k hk
      have hmapeq :
          (((team3.greedyTriples (max 1 (min 3 (team3.get_task_completion_rate c)))
              (p.energy - max 1 (min 3 (team3.get_task_completion_rate c)))
              (sortDescBy (fun e => e.2.1) evals)).map (fun e => e.1)).take (k + 1)).map
            (fun i => team3.calculate_solo_cost p.abilities (c.tasks.getD i [])) =
          (((team3.greedyTriples (max 1 (min 3 (team3.get_task_completion_rate c)))
              (p.energy - max 1 (min 3 (team3.get_task_completion_rate c)))
              (sortDescBy (fun e => e.2.1) evals)).take (k + 1)).map (fun e => e.2.2)) := by
        rw [← List.map_take, List.map_map]
        apply List.map_congr_left
        intro e he
        have he1 : e ∈ team3.greedyTriples (max 1 (min 3 (team3.get_task_completion_rate c)))
            (p.energy - max 1 (min 3 (team3.get_task_completion_rate c)))
            (sortDescBy (fun e => e.2.1) evals) := List.take_subset _ _ he
        have he2 : e ∈ sortDescBy (fun e => e.2.1) evals :=
          greedyTriples_subset _ _ _ e he1
        have he3 : e ∈ evals := (sortDescBy_perm _ _).subset he2
        obtain ⟨_, _, hc3, _, _, _⟩ :=
          evalTasks_mem p (team3.communityAvgAbilitiesII p c)
            (p.energy - max 1 (min 3 (team3.get_task_completion_rate c)))
            c.tasks 0 evals hev e he3
        simp only [Nat.sub_zero] at hc3
        simp only [Function.comp]
        rw [← hc3]
      rw [hmapeq]
      linarith

set_option maxHeartbeats 1000000 in
/-- C5 witness: a caller of energy 10 and abilities [1] facing the single
task [2] selects and returns exactly task 0, and both conclusions hold
there. -/
theorem C5_phaseII_cost_ceiling_and_budget_witness :
    team3.phaseIIselect ⟨0, [1], 10, false⟩ ⟨[⟨0, [1], 10, false⟩], [[2]]⟩ = some [0] ∧
    team3.phaseIIpreferences id ⟨0, [1], 10, false⟩
      ⟨[⟨0, [1], 10, false⟩], [[2]]⟩ = some [0] ∧
    ((∀ i ∈ ([0] : List ℕ),
        team3.calculate_solo_cost (⟨0, [1], 10, false⟩ : Player).abilities
          ((⟨[⟨0, [1], 10, false⟩], [[2]]⟩ : Community).tasks.getD i []) ≤
          (⟨0, [1], 10, false⟩ : Player).energy * (7 / 10)) ∧
      (∀ k, k + 1 < ([0] : List ℕ).length →
        max 1 (min 3 (team3.get_task_completion_rate
            ⟨[⟨0, [1], 10, false⟩], [[2]]⟩)) ≤
          (⟨0, [1], 10, false⟩ : Player).energy -
            max 1 (min 3 (team3.get_task_completion_rate
              ⟨[⟨0, [1], 10, false⟩], [[2]]⟩)) -
            ((([0] : List ℕ).take (k + 1)).map (fun i =>
              team3.calculate_solo_cost (⟨0, [1], 10, false⟩ : Player).abilities
                ((⟨[⟨0, [1], 10, false⟩], [[2]]⟩ : Community).tasks.getD i []))).sum)) := by
  have hsel : team3.phaseIIselect ⟨0, [1], 10, false⟩
      ⟨[⟨0, [1], 10, false⟩], [[2]]⟩ = some [0] := by
    unfold team3.phaseIIselect team3.get_task_completion_rate team3.communityAvgAbilitiesII
      team3.evalTasks team3.evaluate_task_suitability team3.calculate_solo_cost
      sortDescBy insertDescBy team3.greedyTriples
    norm_num [List.range_succ, List.filterMap_cons, List.filter]
    simp only [team3.evalTasks]
    norm_num [sortDescBy, insertDescBy, team3.greedyTriples]
  have hout : team3.phaseIIpreferences id ⟨0, [1], 10, false⟩
      ⟨[⟨0, [1], 10, false⟩], [[2]]⟩ = some [0] := by
    unfold team3.phaseIIpreferences
    rw [hsel]
    rfl
  exact ⟨hsel, hout, C5_phaseII_cost_ceiling_and_budget id (fun l => List.Perm.refl l)
    ⟨0, [1], 10, false⟩ ⟨[⟨0, [1], 10, false⟩], [[2]]⟩ [0] [0] hsel hout⟩

theorem chunkShuffleFuel_nil (sh : List ℕ → List ℕ) (g fuel : ℕ) :
    chunkShuffleFuel sh g fuel [] = [] := by
  cases fuel <;> rfl

theorem chunkShuffleFuel_blocks (sh : List ℕ → List ℕ)
    (hsh : ∀ l, List.Perm (sh l) l) (g : ℕ) (hg : 1 ≤ g) :
    ∀ (fuel : ℕ) (l : List ℕ), l.length ≤ fuel → ∀ (k : ℕ),
      List.Perm (((chunkShuffleFuel sh g fuel l).drop (k * g)).take g)
        ((l.drop (k * g)).take g) := by
  intro fuel
  induction fuel with
  | zero =>
    intro l hl k
    have : l = [] := List.length_eq_zero.mp (Nat.le_zero.mp hl)
    subst this
    simp [chunkShuffleFuel_nil]
  | succ n ih =>
    intro l hl k
    cases l with
    | nil => simp [chunkShuffleFuel_nil]
    | cons a as =>
      have hgne : g ≠ 0 := by omega
      have hstep : chunkShuffleFuel sh g (n + 1) (a :: as) =
          if g = 0 then (a :: as)
          else sh ((a :: as).take g) ++ chunkShuffleFuel sh g n ((a :: as).drop g) := rfl
      rw [hstep, if_neg hgne]
      have hlensh : (sh ((a :: as).take g)).length = ((a :: as).take g).length :=
        (hsh _).length_eq
      by_cases hlg : g ≤ (a :: as).length
      · have hlen : (sh ((a :: as).take g)).length = g := by
          rw [hlensh, List.length_take]
          omega
        cases k with
        | zero =>
          simp only [Nat.zero_mul, List.drop_zero]
          rw [List.take_append_eq_append_take, List.take_of_length_le (le_of_eq hlen),
            hlen, Nat.sub_self, List.take_zero, List.append_nil]
          exact hsh _
        | succ k2 =>
          have hdrop : ((a :: as).drop g).length ≤ n := by
            rw [List.length_drop]
            simp only [List.length_cons] at hl ⊢
            omega
          have hmul : (k2 + 1) * g = g + k2 * g := by ring
          rw [hmul, List.drop_append_eq_append_drop,
            List.drop_eq_nil_of_le (by omega : (sh ((a :: as).take g)).length ≤ g + k2 * g),
            List.nil_append, hlen]
          have harith : g + k2 * g - g = k2 * g := by omega
          rw [harith]
          have hih := ih ((a :: as).drop g) hdrop k2
          refine hih.trans ?_
          rw [List.drop_drop]
      · push_neg at hlg
        have htake : (a :: as).take g = a :: as := List.take_of_length_le (le_of_lt hlg)
        have hdropnil : (a :: as).drop g = [] := List.drop_eq_nil_of_le (le_of_lt hlg)
        rw [htake, hdropnil, chunkShuffleFuel_nil, List.append_nil]
        have hlen2 : (sh (a :: as)).length = (a :: as).length := (hsh _).length_eq
        cases k with
        | zero =>
          simp only [Nat.zero_mul, List.drop_zero]
          rw [List.take_of_length_le (by omega : (sh (a :: as)).length ≤ g),
            List.take_of_length_le (le_of_lt hlg)]
          exact hsh _
        | succ k2 =>
          have hbig : (a :: as).length ≤ (k2 + 1) * g := by
            have hgle : g ≤ (k2 + 1) * g := Nat.le_mul_of_pos_left g (by omega)
            omega
          rw [List.drop_eq_nil_of_le (by omega : (sh (a :: as)).length ≤ (k2 + 1) * g),
            List.drop_eq_nil_of_le hbig]

/-- C9 counterexample: with 7 accepted tasks the source shuffles within
groups of size max(1, 7 // 3) = 2, not the claimed ceiling 7/3 = 3: the
reversal shuffle (a legal outcome of the random source on every group)
moves task index 3 into the first 3-element group, which therefore does
not contain the same task indices before and after. -/
theorem C9_counterexample :
    team3.groupShuffle List.reverse [0, 1, 2, 3, 4, 5, 6] = [1, 0, 3, 2, 5, 4, 6] ∧
    (3 : ℕ) ∈ ((team3.groupShuffle List.reverse [0, 1, 2, 3, 4, 5, 6]).take 3) ∧
    (3 : ℕ) ∉ (([0, 1, 2, 3, 4, 5, 6] : List ℕ).take 3) := by
  refine ⟨by decide, by decide, by decide⟩

/-- C9 (amended): the final randomization of the heuristic phase II
permutes the accepted, suitability-sorted list only within fixed-size
contiguous groups whose size is max(1, floor(acceptedCount / 3)) (Python
floor division, not the ceiling): each contiguous group of that size
contains the same task indices before and after the shuffle, for every
accepted list and permuting random source. -/
theorem C9_group_shuffle_blocks (sh : List ℕ → List ℕ)
    (hsh : ∀ l, List.Perm (sh l) l) (l : List ℕ) (k : ℕ) :
    List.Perm
      (((team3.groupShuffle sh l).drop (k * max 1 (l.length / 3))).take
        (max 1 (l.length / 3)))
      ((l.drop (k * max 1 (l.length / 3))).take (max 1 (l.length / 3))) :=
  chunkShuffleFuel_blocks sh hsh (max 1 (l.length / 3)) (le_max_left 1 _)
    l.length l le_rfl k

/-- C9 witness: on the seven-element list with the reversal shuffle, the
second group of the code's size 2 (indices 2 and 3 of the list) is a
permutation of the original group. -/
theorem C9_group_shuffle_blocks_witness :
    List.Perm
      (((team3.groupShuffle List.reverse [0, 1, 2, 3, 4, 5, 6]).drop
        (1 * max 1 (([0, 1, 2, 3, 4, 5, 6] : List ℕ).length / 3))).take
        (max 1 (([0, 1, 2, 3, 4, 5, 6] : List ℕ).length / 3)))
      ((([0, 1, 2, 3, 4, 5, 6] : List ℕ).drop
        (1 * max 1 (([0, 1, 2, 3, 4, 5, 6] : List ℕ).length / 3))).take
        (max 1 (([0, 1, 2, 3, 4, 5, 6] : List ℕ).length / 3))) :=
  C9_group_shuffle_blocks List.reverse (fun l => List.reverse_perm l)
    [0, 1, 2, 3, 4, 5, 6] 1

/-- The argmin of an empty list is none, and conversely. -/
theorem argminQ_eq_none {α : Type} (f : α → ℚ) (l : List α) :
    argminQ f l = none ↔ l = [] := by
  cases l with
  | nil => simp [argminQ]
  | cons x xs =>
    simp only [argminQ]
    cases argminQ f xs with
    | none => simp
    | some y =>
      by_cases h : f x ≤ f y
      · simp [h]
      · simp [h]

/-- The argmin belongs to the list it was taken over. -/
theorem argminQ_mem {α : Type} (f : α → ℚ) :
    ∀ (l : List α) (y : α), argminQ f l = some y → y ∈ l := by
  intro l
  induction l with
  | nil => intro y h; simp [argminQ] at h
  | cons x xs ih =>
    intro y h
    unfold argminQ at h
    cases hxs : argminQ f xs with
    | none =>
      rw [hxs] at h
      injection h with h2
      subst h2
      simp
    | some z =>
      rw [hxs] at h
      dsimp only at h
      by_cases hle : f x ≤ f z
      · rw [if_pos hle] at h
        injection h with h2
        subst h2
        simp
      · rw [if_neg hle] at h
        injection h with h2
        subst h2
        exact List.mem_cons_of_mem x (ih z hxs)

/-- The argmin minimizes the function over the list. -/
theorem argminQ_le {α : Type} (f : α → ℚ) :
    ∀ (l : List α) (y : α), argminQ f l = some y → ∀ x ∈ l, f y ≤ f x := by
  intro l
  induction l with
  | nil => intro y h; simp [argminQ] at h
  | cons x xs ih =>
    intro y h x2 hx2
    unfold argminQ at h
    cases hxs : argminQ f xs with
    | none =>
      rw [hxs] at h
      injection h with h2
      subst h2
      have hnil : xs = [] := (argminQ_eq_none f xs).mp hxs
      subst hnil
      rcases List.mem_cons.mp hx2 with h3 | h3
      · subst h3; exact le_refl _
      · exact absurd h3 (by simp)
    | some z =>
      rw [hxs] at h
      dsimp only at h
      by_cases hle : f x ≤ f z
      · rw [if_pos hle] at h
        injection h with h2
        subst h2
        rcases List.mem_cons.mp hx2 with h3 | h3
        · subst h3; exact le_refl _
        · exact le_trans hle (ih z hxs x2 h3)
      · rw [if_neg hle] at h
        injection h with h2
        subst h2
        push_neg at hle
        rcases List.mem_cons.mp hx2 with h3 | h3
        · subst h3; exact le_of_lt hle
        · exact ih z hxs x2 h3

/-- Completeness of the injection enumeration: every duplicate-free,
in-range assignment list appears in it. -/
theorem injections_complete :
    ∀ (asg : List ℕ) (C : ℕ), asg.Nodup → (∀ x ∈ asg, x < C) →
      asg ∈ injections asg.length C := by
  intro asg
  induction asg with
  | nil => intro C _ _; simp [injections]
  | cons c rest ih =>
    intro C hnd hbd
    have hres : rest ∈ injections rest.length C :=
      ih C (List.Nodup.of_cons hnd) (fun x hx => hbd x (List.mem_cons_of_mem c hx))
    simp only [List.length_cons, injections, List.mem_flatten]
    refine ⟨(injections rest.length C).filterMap
      (fun r => if c ∈ r then none else some (c :: r)), ?_, ?_⟩
    · exact List.mem_map_of_mem _ (List.mem_range.mpr (hbd c (by simp)))
    · rw [List.mem_filterMap]
      refine ⟨rest, hres, ?_⟩
      have hcnot : c ∉ rest := (List.nodup_cons.mp hnd).1
      rw [if_neg hcnot]

/-- C3: on communities of at most 4 tasks and 4 agents, the total cost of
the matching found by assign_phase1 over the tasks by (partnerships then
individuals) cost matrix is at most the total cost of every feasible
assignment matching each task to a distinct column of that matrix. -/
theorem C3_assign_phase1_optimal (tasks : List (List ℚ)) (members : List Player)
    (hT : tasks.length ≤ 4) (hM : members.length ≤ 4)
    (res : List (List ℕ × List ℚ × ℚ)) (tc : ℚ)
    (hres : team6.assign_phase1 tasks members = some (res, tc))
    (asg : List ℕ) (hlen : asg.length = tasks.length) (hnd : asg.Nodup)
    (hbd : ∀ x ∈ asg, x <
      (team6.partnershipsList members.length).length + members.length) :
    tc ≤ team6.totalCost (team6.costMatrixEntry tasks members) asg := by
  cases hlsa : team6.linear_sum_assignment (team6.costMatrixEntry tasks members)
      tasks.length ((team6.partnershipsList members.length).length + members.length) with
  | none =>
    unfold team6.assign_phase1 at hres
    dsimp only at hres
    rw [hlsa] at hres
    exact absurd hres (by simp)
  | some cols =>
    unfold team6.assign_phase1 at hres
    dsimp only at hres
    rw [hlsa] at hres
    injection hres with h2
    have htc : tc = team6.totalCost (team6.costMatrixEntry tasks members) cols := by
      have := congrArg Prod.snd h2
      simpa using this.symm
    rw [htc]
    have hmem := injections_complete asg
      ((team6.partnershipsList members.length).length + members.length) hnd hbd
    rw [hlen] at hmem
    exact argminQ_le _ _ _ hlsa asg hmem

set_option maxHeartbeats 1000000 in
/-- C3 witness: one task [1] and one agent of abilities [0] and energy 5
give a 1-by-1 matrix whose only feasible assignment, of cost 1, is the one
found. -/
theorem C3_assign_phase1_optimal_witness :
    team6.assign_phase1 [[1]] [⟨0, [0], 5, false⟩] = some ([([0], [1], 1)], 1) ∧
    ([[1]] : List (List ℚ)).length ≤ 4 ∧
    ([(⟨0, [0], 5, false⟩ : Player)] : List Player).length ≤ 4 ∧
    ([0] : List ℕ).length = ([[1]] : List (List ℚ)).length ∧
    ([0] : List ℕ).Nodup ∧
    (∀ x ∈ ([0] : List ℕ),
      x < (team6.partnershipsList
          ([(⟨0, [0], 5, false⟩ : Player)] : List Player).length).length +
        ([(⟨0, [0], 5, false⟩ : Player)] : List Player).length) ∧
    (1 : ℚ) ≤ team6.totalCost
      (team6.costMatrixEntry [[1]] [⟨0, [0], 5, false⟩]) [0] := by
  have hps : team6.partnershipsList 1 = [] := by decide
  have hlsa : team6.linear_sum_assignment
      (team6.costMatrixEntry [[1]] [⟨0, [0], 5, false⟩]) 1
      ((team6.partnershipsList 1).length + 1) = some [0] := by
    unfold team6.linear_sum_assignment
    rw [show injections 1 ((team6.partnershipsList 1).length + 1) = [[0]] from by decide]
    rfl
  have hres : team6.assign_phase1 [[1]] [⟨0, [0], 5, false⟩] =
      some ([([0], [1], 1)], 1) := by
    unfold team6.assign_phase1
    dsimp only
    simp only [List.length_singleton]
    rw [hlsa]
    norm_num [enumFromIdx, hps, team6.costMatrixEntry, team6.totalCost,
      team6.loss_phase2, List.range_succ]
  refine ⟨hres, by norm_num, by norm_num, by decide, by decide, by decide, ?_⟩
  exact C3_assign_phase1_optimal [[1]] [⟨0, [0], 5, false⟩] (by norm_num) (by norm_num)
    [([0], [1], 1)] 1 hres [0] (by decide) (by decide) (by decide)
